import Mathlib

/-!
Verification development for the lexyo browser chat client
(message-rendering and room-state reconciliation core).

Shallow embedding conventions:
* JavaScript strings are Lean `String`; values that may be `undefined`
  or `null` in a payload are `Option String` (and similarly for numbers
  and booleans).  The JS operator chain `a || b` on strings is `jsOrS`
  and `jsOrD` (empty string is falsy); the nullish operator `a ?? b` is
  `Option.getD`.
* JS objects used as string-keyed maps (`roomMessages`, `mpPeerByRoom`)
  are association lists with `lookupA`, `insertA`, `eraseA`.
* `Date.now()` is an explicit `now : Nat` argument (milliseconds);
  timestamps in seconds are `now / 1000`.
* Render artifacts are modelled abstractly: constructor `Artifact.msg`
  records exactly the arguments `renderHTMLMessage` receives, and
  `Artifact.system` the text a system div receives.  The markup
  serialization itself (time formatting, autolinking, media embeds) is
  not inspected by any claim; `escapeHTML`, which is inspected, is
  embedded at the character level below.
* The DOM message container is modelled as a journal of DOM operations
  (`DomOp.append` for insertAdjacentHTML beforeend, `DomOp.replace` for
  innerHTML assignment); `viewOf` replays the journal to the rendered
  view.  Scroll management, tab DOM rendering and focus handling have
  no effect on the modelled state and are noted in comments.
-/

/-- JS `a || b` for two strings: the empty string is falsy. -/
def jsOrS (a b : String) : String :=
  if a = "" then b else a

/-- JS `a || b` where `a` may be null/undefined: null, undefined and "" are falsy. -/
def jsOrD (a : Option String) (b : String) : String :=
  match a with
  | none => b
  | some s => if s = "" then b else s

/-- Truthiness of an optional string: present and nonempty. -/
def truthyO (a : Option String) : Bool :=
  match a with
  | none => false
  | some s => s ≠ ""


/-- Character-level `String.startsWith` (kernel-evaluable form). -/
def jsStartsWith (s pat : String) : Bool := pat.data.isPrefixOf s.data

/-- Character-level `String.trim` (kernel-evaluable form). -/
def jsTrim (s : String) : String :=
  String.mk (((s.data.dropWhile Char.isWhitespace).reverse.dropWhile
    Char.isWhitespace).reverse)

def splitCharAux (sep : Char) : List Char → List Char → List (List Char)
  | [], acc => [acc.reverse]
  | c :: rest, acc =>
      if c = sep then acc.reverse :: splitCharAux sep rest []
      else splitCharAux sep rest (c :: acc)

/-- Character-level `String.split(sep)` for a one-character separator. -/
def jsSplitChar (s : String) (sep : Char) : List String :=
  (splitCharAux sep s.data []).map String.mk

/-! ### Association-list maps (JS objects keyed by strings) -/

/-- Lookup in a string-keyed object. -/
def lookupA {α : Type} : List (String × α) → String → Option α
  | [], _ => none
  | (k2, v) :: rest, k => if k2 = k then some v else lookupA rest k

/-- Property assignment `m[k] = v`: updates the existing key in place or appends. -/
def insertA {α : Type} : List (String × α) → String → α → List (String × α)
  | [], k, v => [(k, v)]
  | (k2, v2) :: rest, k, v =>
      if k2 = k then (k, v) :: rest else (k2, v2) :: insertA rest k v

/-- `delete m[k]`. -/
def eraseA {α : Type} : List (String × α) → String → List (String × α)
  | [], _ => []
  | (k2, v2) :: rest, k =>
      if k2 = k then eraseA rest k else (k2, v2) :: eraseA rest k

theorem lookupA_insertA_self {α : Type} (m : List (String × α)) (k : String) (v : α) :
    lookupA (insertA m k v) k = some v := by
  induction m with
  | nil => simp [insertA, lookupA]
  | cons hd tl ih =>
      by_cases h : hd.1 = k
      · simp [insertA, h, lookupA]
      · simp [insertA, h, lookupA, ih]

theorem lookupA_insertA_ne {α : Type} (m : List (String × α)) (k k2 : String) (v : α)
    (h : k ≠ k2) : lookupA (insertA m k v) k2 = lookupA m k2 := by
  induction m with
  | nil => simp [insertA, lookupA, h]
  | cons hd tl ih =>
      by_cases h2 : hd.1 = k
      · simp [insertA, h2, lookupA, h]
      · simp [insertA, h2, lookupA, ih]

theorem lookupA_eraseA_self {α : Type} (m : List (String × α)) (k : String) :
    lookupA (eraseA m k) k = none := by
  induction m with
  | nil => simp [eraseA, lookupA]
  | cons hd tl ih =>
      by_cases h : hd.1 = k
      · simp [eraseA, h, ih]
      · simp [eraseA, h, lookupA, ih]

theorem lookupA_eraseA_ne {α : Type} (m : List (String × α)) (k k2 : String)
    (h : k ≠ k2) : lookupA (eraseA m k) k2 = lookupA m k2 := by
  induction m with
  | nil => simp [eraseA, lookupA]
  | cons hd tl ih =>
      by_cases h2 : hd.1 = k
      · have hne : ¬(k = k2) := h
        simp [eraseA, h2, lookupA, ih, hne]
      · simp [eraseA, h2, lookupA, ih]

/-! ### utils.js — escapeHTML (character-level embedding)

`escapeHTML` applies five global single-character regex replacements in
order: `&` then `<` then `>` then `"` then the single quote. -/

/-- The single-quote character, written by code to avoid quoting issues. -/
def squote : Char := Char.ofNat 39

/-- Global replacement of one character by a string of characters,
    the semantics of `String.replace(/c/g, r)`. -/
def replaceAllC (c : Char) (r : List Char) : List Char → List Char
  | [] => []
  | x :: xs => (if x = c then r else [x]) ++ replaceAllC c r xs

/-- utils.js `escapeHTML` (the falsy guard returns "" for the empty string,
    which coincides with the replacement pipeline on the empty string). -/
def escapeHTML (str : String) : String :=
  if str = "" then "" else
  let l1 := replaceAllC '&' "&amp;".data str.data
  let l2 := replaceAllC '<' "&lt;".data l1
  let l3 := replaceAllC '>' "&gt;".data l2
  let l4 := replaceAllC '"' "&quot;".data l3
  let l5 := replaceAllC squote "&#039;".data l4
  String.mk l5

/-- Per-character view of the pipeline: what one input character becomes. -/
def escChar (c : Char) : List Char :=
  if c = '&' then "&amp;".data
  else if c = '<' then "&lt;".data
  else if c = '>' then "&gt;".data
  else if c = '"' then "&quot;".data
  else if c = squote then "&#039;".data
  else [c]

theorem replaceAllC_append (c : Char) (r : List Char) (l1 l2 : List Char) :
    replaceAllC c r (l1 ++ l2) = replaceAllC c r l1 ++ replaceAllC c r l2 := by
  induction l1 with
  | nil => simp [replaceAllC]
  | cons x xs ih => simp [replaceAllC, ih]

/-- The full five-stage pipeline on a character list. -/
def escPipe (l : List Char) : List Char :=
  replaceAllC squote "&#039;".data
    (replaceAllC '"' "&quot;".data
      (replaceAllC '>' "&gt;".data
        (replaceAllC '<' "&lt;".data
          (replaceAllC '&' "&amp;".data l))))

theorem escPipe_append (l1 l2 : List Char) :
    escPipe (l1 ++ l2) = escPipe l1 ++ escPipe l2 := by
  simp [escPipe, replaceAllC_append]

theorem escPipe_single (x : Char) : escPipe [x] = escChar x := by
  by_cases h1 : x = '&'
  · subst h1; rfl
  by_cases h2 : x = '<'
  · subst h2; rfl
  by_cases h3 : x = '>'
  · subst h3; rfl
  by_cases h4 : x = '"'
  · subst h4; rfl
  by_cases h5 : x = squote
  · subst h5; rfl
  · simp [escPipe, replaceAllC, escChar, h1, h2, h3, h4, h5]

theorem escPipe_eq_flatten (l : List Char) :
    escPipe l = (l.map escChar).flatten := by
  induction l with
  | nil => rfl
  | cons x xs ih =>
      have : x :: xs = [x] ++ xs := rfl
      rw [this, escPipe_append, escPipe_single, List.map_append, List.flatten_append, ih]
      simp

theorem escapeHTML_eq_escPipe (s : String) : escapeHTML s = String.mk (escPipe s.data) := by
  by_cases h : s = ""
  · subst h; rfl
  · simp [escapeHTML, h, escPipe]

/-- Checker: no raw `<`, `>`, `"` or quote anywhere, and every `&`
    begins one of the five entities produced by escapeHTML. -/
def escapedOK : List Char → Bool
  | [] => true
  | c :: rest =>
      if c = '<' ∨ c = '>' ∨ c = '"' ∨ c = squote then false
      else if c = '&' then
        if "amp;".data.isPrefixOf rest ∨ "lt;".data.isPrefixOf rest ∨
           "gt;".data.isPrefixOf rest ∨ "quot;".data.isPrefixOf rest ∨
           ("#039;".data).isPrefixOf rest
        then escapedOK rest else false
      else escapedOK rest

theorem isPrefixOf_append_self (p t : List Char) : p.isPrefixOf (p ++ t) = true := by
  induction p with
  | nil => simp [List.isPrefixOf]
  | cons x xs ih => simp [List.isPrefixOf, ih]

theorem escapedOK_escChar_append (c : Char) (t : List Char) :
    escapedOK (escChar c ++ t) = escapedOK t := by
  by_cases h1 : c = '&'
  · subst h1
    simp only [escChar, if_pos rfl]
    show escapedOK ('&' :: ("amp;".data ++ t)) = escapedOK t
    rw [escapedOK]
    have hp : "amp;".data.isPrefixOf ("amp;".data ++ t) = true :=
      isPrefixOf_append_self _ _
    rw [if_neg (by decide), if_pos rfl, if_pos (by left; exact hp)]
    show escapedOK ('a' :: ('m' :: ('p' :: (';' :: t)))) = escapedOK t
    rw [escapedOK, if_neg (by decide), if_neg (by decide)]
    rw [escapedOK, if_neg (by decide), if_neg (by decide)]
    rw [escapedOK, if_neg (by decide), if_neg (by decide)]
    rw [escapedOK, if_neg (by decide), if_neg (by decide)]
  by_cases h2 : c = '<'
  · subst h2
    simp only [escChar, if_neg (by decide : ¬('<' = '&')), if_pos rfl]
    show escapedOK ('&' :: ("lt;".data ++ t)) = escapedOK t
    rw [escapedOK]
    have hp : "lt;".data.isPrefixOf ("lt;".data ++ t) = true :=
      isPrefixOf_append_self _ _
    rw [if_neg (by decide), if_pos rfl, if_pos (by right; left; exact hp)]
    show escapedOK ('l' :: ('t' :: (';' :: t))) = escapedOK t
    rw [escapedOK, if_neg (by decide), if_neg (by decide)]
    rw [escapedOK, if_neg (by decide), if_neg (by decide)]
    rw [escapedOK, if_neg (by decide), if_neg (by decide)]
  by_cases h3 : c = '>'
  · subst h3
    simp only [escChar, if_neg (by decide : ¬('>' = '&')),
      if_neg (by decide : ¬('>' = '<')), if_pos rfl]
    show escapedOK ('&' :: ("gt;".data ++ t)) = escapedOK t
    rw [escapedOK]
    have hp : "gt;".data.isPrefixOf ("gt;".data ++ t) = true :=
      isPrefixOf_append_self _ _
    rw [if_neg (by decide), if_pos rfl, if_pos (by right; right; left; exact hp)]
    show escapedOK ('g' :: ('t' :: (';' :: t))) = escapedOK t
    rw [escapedOK, if_neg (by decide), if_neg (by decide)]
    rw [escapedOK, if_neg (by decide), if_neg (by decide)]
    rw [escapedOK, if_neg (by decide), if_neg (by decide)]
  by_cases h4 : c = '"'
  · subst h4
    simp only [escChar, if_neg (by decide : ¬('"' = '&')),
      if_neg (by decide : ¬('"' = '<')), if_neg (by decide : ¬('"' = '>')), if_pos rfl]
    show escapedOK ('&' :: ("quot;".data ++ t)) = escapedOK t
    rw [escapedOK]
    have hp : "quot;".data.isPrefixOf ("quot;".data ++ t) = true :=
      isPrefixOf_append_self _ _
    rw [if_neg (by decide), if_pos rfl, if_pos (by right; right; right; left; exact hp)]
    show escapedOK ('q' :: ('u' :: ('o' :: ('t' :: (';' :: t))))) = escapedOK t
    rw [escapedOK, if_neg (by decide), if_neg (by decide)]
    rw [escapedOK, if_neg (by decide), if_neg (by decide)]
    rw [escapedOK, if_neg (by decide), if_neg (by decide)]
    rw [escapedOK, if_neg (by decide), if_neg (by decide)]
    rw [escapedOK, if_neg (by decide), if_neg (by decide)]
  by_cases h5 : c = squote
  · subst h5
    simp only [escChar, if_neg (by decide : ¬(squote = '&')),
      if_neg (by decide : ¬(squote = '<')), if_neg (by decide : ¬(squote = '>')),
      if_neg (by decide : ¬(squote = '"')), if_pos rfl]
    show escapedOK ('&' :: (("#039;".data) ++ t)) = escapedOK t
    rw [escapedOK]
    have hp : ("#039;".data).isPrefixOf (("#039;".data) ++ t) = true :=
      isPrefixOf_append_self _ _
    rw [if_neg (by decide), if_pos rfl, if_pos (by right; right; right; right; exact hp)]
    show escapedOK ('#' :: ('0' :: ('3' :: ('9' :: (';' :: t))))) = escapedOK t
    rw [escapedOK, if_neg (by decide), if_neg (by decide)]
    rw [escapedOK, if_neg (by decide), if_neg (by decide)]
    rw [escapedOK, if_neg (by decide), if_neg (by decide)]
    rw [escapedOK, if_neg (by decide), if_neg (by decide)]
    rw [escapedOK, if_neg (by decide), if_neg (by decide)]
  · simp only [escChar, h1, h2, h3, h4, h5, if_false]
    show escapedOK (c :: t) = escapedOK t
    rw [escapedOK]
    rw [if_neg (by push_neg; exact ⟨h2, h3, h4, h5⟩), if_neg h1]

theorem escapedOK_escPipe (l : List Char) : escapedOK (escPipe l) = true := by
  induction l with
  | nil => rfl
  | cons x xs ih =>
      have hx : x :: xs = [x] ++ xs := rfl
      rw [hx, escPipe_append, escPipe_single, escapedOK_escChar_append, ih]

/-! ### messages.js — local-echo anti-duplicate buffer

Constants from the source: LOCAL_ECHO_MAX = 25, LOCAL_ECHO_TTL_MS = 5000.
The buffer is a global array, oldest entry first; `_nowMs` (Date.now) is
passed explicitly as `now`. -/

/-- One entry of LOCAL_ECHO_BUFFER. -/
structure EchoEntry where
  room : String
  text : String
  ts : Nat
deriving DecidableEq, Repr

def LOCAL_ECHO_MAX : Nat := 25

def LOCAL_ECHO_TTL_MS : Nat := 5000

/-- messages.js `_normalizeText`: String(t ?? "").trim(). -/
def _normalizeText (t : String) : String := jsTrim t

/-- An entry is stale at time `now` when `e.ts < now - LOCAL_ECHO_TTL_MS`.
    (Nat subtraction truncates at 0, matching the JS comparison against a
    negative cutoff, which no nonnegative timestamp satisfies.) -/
def staleAt (now : Nat) (e : EchoEntry) : Bool :=
  e.ts < now - LOCAL_ECHO_TTL_MS

/-- messages.js `rememberLocalEcho`: push the normalized entry, then
    size-purge (`splice(0, length - MAX)`, dropping the oldest), then
    TTL-purge (`shift()` while the head is stale). -/
def rememberLocalEcho (buf : List EchoEntry) (now : Nat) (room text : String) :
    List EchoEntry :=
  let entry : EchoEntry := ⟨jsOrS room "", _normalizeText text, now⟩
  let b1 := buf ++ [entry]
  let b2 := if b1.length > LOCAL_ECHO_MAX then b1.drop (b1.length - LOCAL_ECHO_MAX) else b1
  b2.dropWhile (staleAt now)

/-- Incoming server payload of `receive_message` (fields may be absent). -/
structure MsgData where
  room : Option String
  is_private : Option Bool
  with_ : Option String
  pseudo : Option String
  translated : Option String
  original : Option String
  color : Option String
  timestamp : Option Nat
  is_admin : Option Bool
  is_mod : Option Bool
deriving DecidableEq, Repr

/-- The normalized incoming text of a payload:
    `_normalizeText(data?.original ?? data?.translated ?? "")`. -/
def incomingTextOf (data : MsgData) : String :=
  _normalizeText (data.original.getD (data.translated.getD ""))

/-- The downward index scan of `isServerEchoDuplicate`: starting from the
    highest index (most recent entry), splice out the first entry
    satisfying `p`; `none` when no entry matches. -/
def findRemoveLast (p : EchoEntry → Bool) : List EchoEntry → Option (List EchoEntry)
  | [] => none
  | x :: xs =>
      match findRemoveLast p xs with
      | some xs2 => some (x :: xs2)
      | none => if p x then some xs else none

/-- messages.js `isServerEchoDuplicate`: returns the boolean result and the
    buffer after the call (the global buffer is mutated by the TTL purge and
    by consuming a matched entry). -/
def isServerEchoDuplicate (buf : List EchoEntry) (now : Nat) (room : String)
    (data : MsgData) : Bool × List EchoEntry :=
  let r := jsOrS room ""
  let incomingText := incomingTextOf data
  if incomingText = "" then (false, buf)
  else
    let purged := buf.dropWhile (staleAt now)
    match findRemoveLast (fun e => e.room = r ∧ e.text = incomingText) purged with
    | some b2 => (true, b2)
    | none => (false, purged)

/-- A call sequence against the echo buffer (claim C3 quantifies over
    every sequence of remember and isDuplicate calls). -/
inductive EchoOp where
  | rem (now : Nat) (room text : String)
  | dup (now : Nat) (room : String) (data : MsgData)
deriving Repr

def runEcho : List EchoOp → List EchoEntry → List EchoEntry
  | [], buf => buf
  | EchoOp.rem now room text :: rest, buf =>
      runEcho rest (rememberLocalEcho buf now room text)
  | EchoOp.dup now room data :: rest, buf =>
      runEcho rest (isServerEchoDuplicate buf now room data).2

/-! Lemmas about the scan. -/

theorem findRemoveLast_none_iff (p : EchoEntry → Bool) (l : List EchoEntry) :
    findRemoveLast p l = none ↔ ∀ e ∈ l, p e = false := by
  induction l with
  | nil => simp [findRemoveLast]
  | cons x xs ih =>
      constructor
      · intro h e he
        rw [findRemoveLast] at h
        cases hrec : findRemoveLast p xs with
        | some xs2 => rw [hrec] at h; exact absurd h (by simp)
        | none =>
            rw [hrec] at h
            by_cases hx : p x = true
            · rw [if_pos hx] at h; exact absurd h (by simp)
            · rcases List.mem_cons.mp he with rfl | he2
              · simpa using hx
              · exact (ih.mp hrec) e he2
      · intro h
        rw [findRemoveLast]
        have hrec : findRemoveLast p xs = none := ih.mpr (fun e he => h e (by simp [he]))
        rw [hrec]
        rw [if_neg (by simp [h x (by simp)])]

theorem findRemoveLast_some (p : EchoEntry → Bool) (l res : List EchoEntry)
    (h : findRemoveLast p l = some res) :
    ∃ pre e post, l = pre ++ e :: post ∧ p e = true ∧
      (∀ x ∈ post, p x = false) ∧ res = pre ++ post := by
  induction l generalizing res with
  | nil => simp [findRemoveLast] at h
  | cons x xs ih =>
      rw [findRemoveLast] at h
      cases hrec : findRemoveLast p xs with
      | some xs2 =>
          rw [hrec] at h
          obtain rfl : x :: xs2 = res := by simpa using h
          obtain ⟨pre, e, post, hsplit, hpe, hpost, hres⟩ := ih xs2 hrec
          exact ⟨x :: pre, e, post, by simp [hsplit], hpe, hpost, by simp [hres]⟩
      | none =>
          rw [hrec] at h
          by_cases hx : p x = true
          · rw [if_pos hx] at h
            obtain rfl : xs = res := by simpa using h
            exact ⟨[], x, xs, rfl, hx, (findRemoveLast_none_iff p xs).mp hrec, rfl⟩
          · rw [if_neg (by simpa using hx)] at h
            exact absurd h (by simp)

theorem findRemoveLast_sublist (p : EchoEntry → Bool) (l res : List EchoEntry)
    (h : findRemoveLast p l = some res) : res.Sublist l := by
  obtain ⟨pre, e, post, hsplit, _, _, hres⟩ := findRemoveLast_some p l res h
  subst hsplit; subst hres
  exact List.Sublist.append (List.Sublist.refl pre) (List.sublist_cons_self e post)

theorem isServerEchoDuplicate_sublist (buf : List EchoEntry) (now : Nat)
    (room : String) (data : MsgData) :
    (isServerEchoDuplicate buf now room data).2.Sublist buf := by
  rw [isServerEchoDuplicate]
  by_cases hinc : incomingTextOf data = ""
  · simp [hinc]
  · rw [if_neg hinc]
    cases hfind : findRemoveLast (fun e => e.room = jsOrS room "" ∧ e.text = incomingTextOf data)
        (buf.dropWhile (staleAt now)) with
    | some b2 =>
        simp only [hfind]
        exact (findRemoveLast_sublist _ _ _ hfind).trans (List.dropWhile_sublist _)
    | none =>
        simp only [hfind]
        exact List.dropWhile_sublist _

/-! ### Client state (state.js globals plus the modelled DOM journal) -/

/-- Abstract render artifact.  `msg` records the exact arguments passed to
    renderHTMLMessage (utils.js); `system` records the textContent of a
    system div (messages.js appendSystemMessage). -/
inductive Artifact where
  | msg (pseudo shown original color : Option String) (timestamp : Option Nat)
        (isSelf isAdmin isMod : Bool)
  | system (text : String)
deriving DecidableEq, Repr

/-- An operation on the message container DOM:
    insertAdjacentHTML("beforeend", ...) or an innerHTML assignment. -/
inductive DomOp where
  | append (a : Artifact)
  | replace (l : List Artifact)
deriving DecidableEq, Repr

/-- Outbound socket.emit intents relevant to the claims. -/
inductive Emit where
  | join (room : String)
  | switchPrivate (room : String)
  | privateMessage (target msg : String)
  | sendMsg (msg : String)
  | openPrivate (peer : String)
deriving DecidableEq, Repr

/-- The mutable module-level client state (state.js exports, the
    window-scoped identity flags, the echo buffer, and the DOM journal). -/
structure ClientState where
  myPseudo : String
  myUserColor : Option String
  myIsAdmin : Bool
  myIsMod : Bool
  joinedRooms : List String
  currentRoom : Option String
  roomMessages : List (String × List Artifact)
  mpPeerByRoom : List (String × String)
  echoBuffer : List EchoEntry
  domLog : List DomOp
deriving DecidableEq, Repr

def applyDomOp (v : List Artifact) : DomOp → List Artifact
  | DomOp.append a => v ++ [a]
  | DomOp.replace l => l

/-- The rendered view: replay of all DOM operations on the container. -/
def viewOf (s : ClientState) : List Artifact :=
  s.domLog.foldl applyDomOp []

/-- The stored log of a room (empty when the key is absent). -/
def getLog (s : ClientState) (room : String) : List Artifact :=
  (lookupA s.roomMessages room).getD []

/-! ### state.js operations -/

/-- state.js `setMpPeer` (guard: `if (!room || !pseudo) return`). -/
def setMpPeer (s : ClientState) (room pseudo : String) : ClientState :=
  if room = "" ∨ pseudo = "" then s
  else { s with mpPeerByRoom := insertA s.mpPeerByRoom room pseudo }

/-- state.js `getMpPeer`: `mpPeerByRoom[room] || null`. -/
def getMpPeer (s : ClientState) (room : String) : Option String :=
  match lookupA s.mpPeerByRoom room with
  | some p => if p = "" then none else some p
  | none => none

/-- state.js `clearMpPeer` (guard: `if (!room) return`). -/
def clearMpPeer (s : ClientState) (room : String) : ClientState :=
  if room = "" then s else { s with mpPeerByRoom := eraseA s.mpPeerByRoom room }

/-- state.js `cleanupMpRoom`: filter out of joinedRooms, clear the peer,
    delete the stored messages (`if (roomMessages[room]) delete ...`, and
    deleting an absent key is a no-op, so unconditional erasure is
    equivalent), then fall back to joinedRooms[0] or null when the room
    was current. -/
def cleanupMpRoom (s : ClientState) (room : String) : ClientState :=
  if room = "" then s
  else
    let s1 := { s with joinedRooms := s.joinedRooms.filter (fun r => r ≠ room) }
    let s2 := clearMpPeer s1 room
    let s3 := { s2 with roomMessages := eraseA s2.roomMessages room }
    if s3.currentRoom = some room then
      match s3.joinedRooms with
      | [] => { s3 with currentRoom := none }
      | h :: _ => { s3 with currentRoom := some h }
    else s3

/-- state.js `addJoinedRoom` (guard: `if (!joinedRooms.includes(r))`). -/
def addJoinedRoom (s : ClientState) (r : String) : ClientState :=
  if s.joinedRooms.contains r then s
  else { s with joinedRooms := s.joinedRooms ++ [r] }

/-- state.js `ensureRoomArray`: create an empty log when absent, and
    return the room log (in JS the very array stored in roomMessages). -/
def ensureRoomArray (s : ClientState) (room : String) : ClientState × List Artifact :=
  match lookupA s.roomMessages room with
  | some l => (s, l)
  | none => ({ s with roomMessages := insertA s.roomMessages room [] }, [])

/-- The `const arr = ensureRoomArray(room); arr.push(html)` idiom: because
    the returned array aliases the stored one, the push updates the store. -/
def pushRoom (s : ClientState) (room : String) (a : Artifact) : ClientState :=
  let p := ensureRoomArray s room
  { p.1 with roomMessages := insertA p.1.roomMessages room (p.2 ++ [a]) }

/-! ### messages.js append/render operations -/

/-- messages.js `appendLocalMessage` (public optimistic render):
    remembers the local echo, renders, pushes to the room log, and
    appends to the DOM when the room is current (scrollToBottom and
    initMediaLoadFix have no modelled state). -/
def appendLocalMessage (s : ClientState) (room pseudo text : String) (isSelf : Bool)
    (original translated : Option String) (now : Nat) : ClientState :=
  let shown := jsOrD translated text
  let senderColor := if pseudo = s.myPseudo then s.myUserColor else none
  let timestamp := now / 1000
  let s1 := { s with
    echoBuffer := rememberLocalEcho s.echoBuffer now room (original.getD text) }
  let a := Artifact.msg (some pseudo) (some shown) (some (original.getD text))
    senderColor (some timestamp) isSelf s.myIsAdmin s.myIsMod
  let s2 := pushRoom s1 room a
  if s2.currentRoom = some room then
    { s2 with domLog := s2.domLog ++ [DomOp.append a] }
  else s2

/-- messages.js `appendSystemMessage`. -/
def appendSystemMessage (s : ClientState) (room msg : String) : ClientState :=
  let a := Artifact.system msg
  let s1 := pushRoom s room a
  if s1.currentRoom = some room then
    { s1 with domLog := s1.domLog ++ [DomOp.append a] }
  else s1

/-- messages.js `handleIncomingMessage`, line 258:
    `const room = data.room || currentRoom || "#general"`. -/
def resolveIncomingRoom (s : ClientState) (data : MsgData) : String :=
  jsOrD data.room (jsOrD s.currentRoom "#general")

/-- messages.js `handleIncomingMessage` (receive_message):
    resolve the room; detect private; record the peer for a private room
    (MP-02J); for public rooms drop the message when the author is the
    local pseudo or when the local-echo buffer marks it as a server echo
    (the buffer purge/consume mutates the buffer in both outcomes); for a
    private room join it if needed (tab render and blink are DOM only);
    then render, push to the room log, and append to the DOM when the
    room is current. -/
def handleIncomingMessage (s : ClientState) (data : MsgData) (now : Nat) : ClientState :=
  let room := resolveIncomingRoom s data
  let isPrivate : Bool := decide (data.is_private = some true) || jsStartsWith room "@"
  let s1 := if isPrivate && truthyO data.with_ && !(room == "") then
      setMpPeer s room (data.with_.getD "") else s
  if !isPrivate && (data.pseudo == some s1.myPseudo) then s1
  else
    let chk := if !isPrivate then isServerEchoDuplicate s1.echoBuffer now room data
      else (false, s1.echoBuffer)
    if chk.1 then { s1 with echoBuffer := chk.2 }
    else
      let s2 := { s1 with echoBuffer := chk.2 }
      let s3 := if isPrivate && !(s2.joinedRooms.contains room) then
          addJoinedRoom s2 room else s2
      let a := Artifact.msg data.pseudo data.translated data.original data.color
        data.timestamp false (data.is_admin == some true) (data.is_mod == some true)
      let s4 := pushRoom s3 room a
      if s4.currentRoom == some room then
        { s4 with domLog := s4.domLog ++ [DomOp.append a] }
      else s4

/-! ### tabs.js — switching and the tab close handler -/

/-- tabs.js `switchTo`: set current, replace the visible log with the
    stored artifacts (`roomMessages[room] || []` — an existing array is
    always truthy, so the fallback fires only for an absent key), and
    notify the server only for private rooms.  Room title, input
    placeholder, scrolling and renderTabs touch only unmodelled DOM. -/
def switchTo (s : ClientState) (room : String) : ClientState × List Emit :=
  let s1 := { s with currentRoom := some room }
  let list := (lookupA s1.roomMessages room).getD []
  let s2 := { s1 with domLog := s1.domLog ++ [DomOp.replace list] }
  let emits := if jsStartsWith room "@" then [Emit.switchPrivate room] else []
  (s2, emits)

/-- tabs.js tab-close click handler (lines 93-109): splice the room out of
    joinedRooms when present; if it was current, switch to "#general" and
    request to join it, otherwise only re-render the tab strip. -/
def tabCloseHandler (s : ClientState) (roomToClose : String) : ClientState × List Emit :=
  let s1 := if roomToClose ∈ s.joinedRooms then
      { s with joinedRooms := s.joinedRooms.erase roomToClose } else s
  if s1.currentRoom = some roomToClose then
    let p := switchTo s1 "#general"
    (p.1, p.2 ++ [Emit.join "#general"])
  else (s1, [])

/-! ### sockets.js handlers and the sender -/

/-- sockets.js `socket.on("user_kicked")`: system message, splice out of
    joinedRooms, and when the room was current switch to "#general" and
    rejoin it. -/
def userKickedHandler (s : ClientState) (room : String) (reason : Option String) :
    ClientState × List Emit :=
  let s1 := appendSystemMessage s room (jsOrD reason "You were kicked.")
  let s2 := if room ∈ s1.joinedRooms then
      { s1 with joinedRooms := s1.joinedRooms.erase room } else s1
  if s2.currentRoom = some room then
    let p := switchTo s2 "#general"
    (p.1, p.2 ++ [Emit.join "#general"])
  else (s2, [])

/-- sockets.js `socket.on("joined_room")`, the room branch (the color
    branch only reveals the main view and records the identity color in
    unmodelled login DOM state): add the room when absent, then switch. -/
def joinedRoomHandler (s : ClientState) (room : Option String) : ClientState × List Emit :=
  if truthyO room then
    let r := room.getD ""
    let s1 := if s.joinedRooms.contains r then s else addJoinedRoom s r
    switchTo s1 r
  else (s, [])

/-- Character-level `String.indexOf` (first occurrence of a substring). -/
def findSubAux (pat : List Char) : List Char → Nat → Option Nat
  | [], i => if pat = [] then some i else none
  | c :: rest, i =>
      if pat.isPrefixOf (c :: rest) then some i else findSubAux pat rest (i + 1)

def jsIndexOf (s pat : String) : Option Nat := findSubAux pat.data s.data 0

/-- mp.js `handleMpCommand` for a "/mp username message" input: with fewer
    than three space-separated parts show the usage hint; otherwise emit
    open_private and private_message (the target is always a substring of
    cmd, so indexOf succeeds; the fallback 0 is unreachable). -/
def handleMpCommand (s : ClientState) (cmd : String) (currentRoomValue : String) :
    ClientState × List Emit :=
  let parts := jsSplitChar (jsTrim cmd) ' '
  if parts.length < 3 then
    (appendSystemMessage s (jsOrS currentRoomValue "#general") "Usage: /mp username message", [])
  else
    let target := parts.getD 1 ""
    let idx := (jsIndexOf cmd target).getD 0
    let text := jsTrim (String.mk (cmd.data.drop (idx + target.length)))
    if target = "" ∨ text = "" then (s, [])
    else (s, [Emit.openPrivate target, Emit.privateMessage target text])

/-- sockets.js `sendMessage`: trim; empty input only resets the textarea;
    "/mp " goes to handleMpCommand; in a private room resolve the peer
    from the map — when absent, surface the "no longer available" system
    message, clean the room up, fall back to "#general" and rejoin it;
    with a peer emit private_message (no local append, MP-02); in a
    public room do the optimistic local render and emit send_message. -/
def sendMessage (s : ClientState) (raw : String) (now : Nat) : ClientState × List Emit :=
  let msg := jsTrim raw
  if msg = "" then (s, [])
  else
    let room := jsOrD s.currentRoom "#general"
    if jsStartsWith msg "/mp " then handleMpCommand s msg room
    else if jsStartsWith room "@" then
      match getMpPeer s room with
      | none =>
          let s1 := appendSystemMessage s room "This private conversation is no longer available."
          let s2 := cleanupMpRoom s1 room
          let p := switchTo s2 "#general"
          (p.1, p.2 ++ [Emit.join "#general"])
      | some target => (s, [Emit.privateMessage target msg])
    else
      let s1 := appendLocalMessage s room s.myPseudo msg true (some msg) (some msg) now
      (s1, [Emit.sendMsg msg])

/-- The Current Room invariant of the spec: the pointer is null or one of
    the joined rooms. -/
def roomInvariantB (s : ClientState) : Bool :=
  match s.currentRoom with
  | none => true
  | some r => s.joinedRooms.contains r

/-! ### Frame lemmas -/

theorem pushRoom_frame (s : ClientState) (room : String) (a : Artifact) :
    (pushRoom s room a).myPseudo = s.myPseudo ∧
    (pushRoom s room a).currentRoom = s.currentRoom ∧
    (pushRoom s room a).joinedRooms = s.joinedRooms ∧
    (pushRoom s room a).mpPeerByRoom = s.mpPeerByRoom ∧
    (pushRoom s room a).echoBuffer = s.echoBuffer ∧
    (pushRoom s room a).domLog = s.domLog := by
  cases h : lookupA s.roomMessages room <;>
    simp [pushRoom, ensureRoomArray, h]

theorem getLog_pushRoom (s : ClientState) (room : String) (a : Artifact) :
    getLog (pushRoom s room a) room = getLog s room ++ [a] := by
  cases h : lookupA s.roomMessages room <;>
    simp [pushRoom, ensureRoomArray, h, getLog, lookupA_insertA_self]

theorem lookupA_pushRoom_ne (s : ClientState) (room k : String) (a : Artifact)
    (h : room ≠ k) :
    lookupA (pushRoom s room a).roomMessages k = lookupA s.roomMessages k := by
  cases h2 : lookupA s.roomMessages room <;>
    simp [pushRoom, ensureRoomArray, h2, lookupA_insertA_ne _ _ _ _ h]

theorem appendSystemMessage_frame (s : ClientState) (room msg : String) :
    (appendSystemMessage s room msg).myPseudo = s.myPseudo ∧
    (appendSystemMessage s room msg).currentRoom = s.currentRoom ∧
    (appendSystemMessage s room msg).joinedRooms = s.joinedRooms ∧
    (appendSystemMessage s room msg).mpPeerByRoom = s.mpPeerByRoom ∧
    (appendSystemMessage s room msg).echoBuffer = s.echoBuffer := by
  obtain ⟨h1, h2, h3, h4, h5, _⟩ := pushRoom_frame s room (Artifact.system msg)
  unfold appendSystemMessage
  by_cases hc : (pushRoom s room (Artifact.system msg)).currentRoom = some room
  · simp only [if_pos hc]
    exact ⟨h1, h2, h3, h4, h5⟩
  · simp only [if_neg hc]
    exact ⟨h1, h2, h3, h4, h5⟩

/-! ### C8 — escapeHTML neutralizes the special characters -/

/-- C8: for every input string, escapeHTML yields a string with no raw
    special character: it is exactly the character-wise entity expansion
    (ampersand, less-than, greater-than, double quote and single quote
    each become their HTML entity), and in the output no raw less-than,
    greater-than, double-quote or single-quote character occurs, while
    every ampersand begins one of the five generated entities. -/
theorem escapeHTML_neutralizes_specials (s : String) :
    escapeHTML s = String.mk ((s.data.map escChar).flatten) ∧
    escapedOK (escapeHTML s).data = true := by
  constructor
  · rw [escapeHTML_eq_escPipe, escPipe_eq_flatten]
  · rw [escapeHTML_eq_escPipe]
    exact escapedOK_escPipe s.data

/-! ### C9 — ensureRoomArray stability -/

/-- C9: ensureRoomArray called twice with the same key returns the same
    log and the same store state (referential stability); on a key whose
    log exists it returns that log unchanged and does not touch the
    store; on an absent key it creates and returns an empty log. -/
theorem ensureRoomArray_stable (s : ClientState) (k : String) :
    ensureRoomArray (ensureRoomArray s k).1 k = ensureRoomArray s k ∧
    (∀ l, lookupA s.roomMessages k = some l → ensureRoomArray s k = (s, l)) ∧
    (lookupA s.roomMessages k = none →
      (ensureRoomArray s k).2 = [] ∧
      lookupA (ensureRoomArray s k).1.roomMessages k = some []) := by
  refine ⟨?_, ?_, ?_⟩
  · cases h : lookupA s.roomMessages k with
    | some l => simp [ensureRoomArray, h]
    | none => simp [ensureRoomArray, h, lookupA_insertA_self]
  · intro l h; simp [ensureRoomArray, h]
  · intro h; simp [ensureRoomArray, h, lookupA_insertA_self]

def stC9 : ClientState :=
  { myPseudo := "alice", myUserColor := none, myIsAdmin := false, myIsMod := false,
    joinedRooms := ["#general"], currentRoom := some "#general",
    roomMessages := [("#general", [Artifact.system "welcome"])],
    mpPeerByRoom := [], echoBuffer := [], domLog := [] }

/-- C9 witness: concrete evaluation on a present key (log kept intact)
    and on an absent key (empty log created). -/
theorem ensureRoomArray_stable_witness :
    ensureRoomArray stC9 "#general" = (stC9, [Artifact.system "welcome"]) ∧
    (ensureRoomArray stC9 "#random").2 = [] ∧
    lookupA (ensureRoomArray stC9 "#random").1.roomMessages "#random" = some [] := by
  refine ⟨(ensureRoomArray_stable stC9 "#general").2.1 _ (by rfl), ?_, ?_⟩
  · exact ((ensureRoomArray_stable stC9 "#random").2.2 (by rfl)).1
  · exact ((ensureRoomArray_stable stC9 "#random").2.2 (by rfl)).2

/-! ### C6 — switching to the already-current room -/

theorem viewOf_append_replace (s : ClientState) (l : List Artifact) :
    ({ s with domLog := s.domLog ++ [DomOp.replace l] } : ClientState).domLog.foldl
      applyDomOp [] = l := by
  rw [List.foldl_append]; rfl

/-- C6: switchTo is idempotent for rendering — the rendered view after a
    switch is exactly the stored log of the room, a second switch to the
    now-current room renders the same view and keeps the same current
    room — and every invocation (including one for the already-current
    key) emits switch_private exactly when the key denotes a private
    room. -/
theorem switchTo_render_idempotent (s : ClientState) (room : String) :
    viewOf ((switchTo s room).1) = getLog s room ∧
    viewOf ((switchTo ((switchTo s room).1) room).1) = viewOf ((switchTo s room).1) ∧
    ((switchTo ((switchTo s room).1) room).1).currentRoom
      = ((switchTo s room).1).currentRoom ∧
    (switchTo s room).2 = (if jsStartsWith room "@" then [Emit.switchPrivate room] else []) ∧
    (switchTo ((switchTo s room).1) room).2
      = (if jsStartsWith room "@" then [Emit.switchPrivate room] else []) := by
  have hview : ∀ (t : ClientState) (r : String),
      viewOf ((switchTo t r).1) = (lookupA t.roomMessages r).getD [] := by
    intro t r
    unfold switchTo viewOf
    simp only [List.foldl_append]
    rfl
  refine ⟨?_, ?_, ?_, ?_, ?_⟩
  · exact hview s room
  · rw [hview ((switchTo s room).1) room, hview s room]
    rfl
  · rfl
  · rfl
  · rfl

/-! ### C10 — incoming public message from the local pseudo is dropped
    before any state change -/

/-- C10: an incoming non-private message whose author pseudo equals the
    local pseudo leaves the whole client state unchanged — no log entry,
    no DOM append, and the echo buffer is not even consulted (the pseudo
    guard precedes the buffer check), for every state, payload and
    time. -/
theorem handleIncoming_self_guard_noop (s : ClientState) (data : MsgData) (now : Nat)
    (hpriv : data.is_private ≠ some true)
    (hroom : jsStartsWith (resolveIncomingRoom s data) "@" = false)
    (hps : data.pseudo = some s.myPseudo) :
    handleIncomingMessage s data now = s := by
  unfold handleIncomingMessage
  have h1 : decide (data.is_private = some true) = false := by
    simpa using hpriv
  simp only [h1, hroom, Bool.false_or, Bool.false_and, Bool.not_false, Bool.true_and,
    if_neg (by simp : ¬(false = true)), hps]
  simp

def stC10 : ClientState :=
  { myPseudo := "alice", myUserColor := none, myIsAdmin := false, myIsMod := false,
    joinedRooms := ["#general"], currentRoom := some "#general",
    roomMessages := [("#general", [])],
    mpPeerByRoom := [], echoBuffer := [⟨"#general", "hi", 500⟩], domLog := [] }

def dataC10 : MsgData :=
  { room := some "#general", is_private := none, with_ := none,
    pseudo := some "alice", translated := some "hi", original := some "hi",
    color := none, timestamp := some 1, is_admin := none, is_mod := none }

/-- C10 witness: with a matching echo-buffer entry present, an incoming
    public message authored by the local pseudo changes nothing. -/
theorem handleIncoming_self_guard_noop_witness :
    handleIncomingMessage stC10 dataC10 1000 = stC10 :=
  handleIncoming_self_guard_noop stC10 dataC10 1000 (by decide)
    (by decide) (by rfl)

/-! ### C4 — closing a private tab does NOT tear down peer/message state -/

def stC4 : ClientState :=
  { myPseudo := "alice", myUserColor := none, myIsAdmin := false, myIsMod := false,
    joinedRooms := ["#general", "@mp_1"], currentRoom := some "@mp_1",
    roomMessages := [("#general", []), ("@mp_1", [Artifact.system "x"])],
    mpPeerByRoom := [("@mp_1", "bob")], echoBuffer := [], domLog := [] }

/-- C4 counterexample: after the user closes the tab of private room
    "@mp_1" (peer "bob", one stored artifact), the room is gone from the
    joined set, yet its peer mapping and its stored message log are both
    still present — the claimed joint teardown does not happen on tab
    close. -/
theorem tabClose_keeps_peer_and_log :
    getMpPeer (tabCloseHandler stC4 "@mp_1").1 "@mp_1" = some "bob" ∧
    lookupA (tabCloseHandler stC4 "@mp_1").1.roomMessages "@mp_1"
      = some [Artifact.system "x"] ∧
    "@mp_1" ∉ (tabCloseHandler stC4 "@mp_1").1.joinedRooms := by
  refine ⟨by decide, by decide, by decide⟩

/-- C4 (amended): closing a room tab removes only the room's membership
    in the joined set (switching to "#general" and emitting its join
    request when the closed room was current); the peer mapping and the
    stored message log are left untouched — the joint teardown
    (cleanupMpRoom) runs only on the server-signaled paths. -/
theorem tabClose_membership_only (s : ClientState) (room : String) :
    (tabCloseHandler s room).1.mpPeerByRoom = s.mpPeerByRoom ∧
    (tabCloseHandler s room).1.roomMessages = s.roomMessages ∧
    (tabCloseHandler s room).1.joinedRooms = s.joinedRooms.erase room ∧
    (s.currentRoom = some room →
      (tabCloseHandler s room).1.currentRoom = some "#general" ∧
      (tabCloseHandler s room).2 = [Emit.join "#general"]) ∧
    (s.currentRoom ≠ some room →
      (tabCloseHandler s room).1.currentRoom = s.currentRoom ∧
      (tabCloseHandler s room).2 = []) := by
  by_cases hm : room ∈ s.joinedRooms <;>
    by_cases hc : s.currentRoom = some room <;>
      simp [tabCloseHandler, switchTo, hm, hc, List.erase_of_not_mem,
        (by decide : jsStartsWith "#general" "@" = false)]

/-- C4 witness for the amended claim at the concrete counterexample
    state. -/
theorem tabClose_membership_only_witness :
    (tabCloseHandler stC4 "@mp_1").1.joinedRooms = ["#general"] ∧
    (tabCloseHandler stC4 "@mp_1").1.currentRoom = some "#general" ∧
    (tabCloseHandler stC4 "@mp_1").2 = [Emit.join "#general"] := by
  have h := tabClose_membership_only stC4 "@mp_1"
  refine ⟨?_, (h.2.2.2.1 (by rfl)).1, (h.2.2.2.1 (by rfl)).2⟩
  rw [h.2.2.1]; decide

/-! ### C5 — the current-room pointer invariant -/

def stC5 : ClientState :=
  { myPseudo := "alice", myUserColor := none, myIsAdmin := false, myIsMod := false,
    joinedRooms := ["#general"], currentRoom := some "#general",
    roomMessages := [("#general", [])], mpPeerByRoom := [], echoBuffer := [],
    domLog := [] }

/-- C5 counterexample: the invariant holds before, but after the
    user_kicked handler processes a kick from "#general" while it is
    current, the pointer still says "#general" while the joined set is
    empty — the pointer is neither null nor a member. -/
theorem kick_from_general_breaks_invariant :
    roomInvariantB stC5 = true ∧
    roomInvariantB (userKickedHandler stC5 "#general" none).1 = false ∧
    (userKickedHandler stC5 "#general" none).1.currentRoom = some "#general" ∧
    (userKickedHandler stC5 "#general" none).1.joinedRooms = [] := by
  refine ⟨by decide, by decide, by decide, by decide⟩

theorem contains_iff_mem (l : List String) (a : String) : l.contains a = true ↔ a ∈ l := by
  constructor
  · intro h; simpa using h
  · intro h; exact List.elem_eq_true_of_mem h

theorem roomInvariantB_none {s : ClientState} (h : s.currentRoom = none) :
    roomInvariantB s = true := by
  unfold roomInvariantB; rw [h]

theorem roomInvariantB_some {s : ClientState} {r : String} (h : s.currentRoom = some r)
    (hm : r ∈ s.joinedRooms) : roomInvariantB s = true := by
  unfold roomInvariantB; rw [h]; exact (contains_iff_mem _ _).mpr hm

theorem roomInvariantB_dest {s : ClientState} (h : roomInvariantB s = true) :
    s.currentRoom = none ∨ ∃ r, s.currentRoom = some r ∧ r ∈ s.joinedRooms := by
  unfold roomInvariantB at h
  cases hcur : s.currentRoom with
  | none => exact Or.inl rfl
  | some r =>
      rw [hcur] at h
      exact Or.inr ⟨r, rfl, (contains_iff_mem _ _).mp h⟩

/-- C5 (amended): cleanupMpRoom (ghost-room cleanup) preserves the
    current-room invariant unconditionally, switching establishes it for
    any member of the joined set, and join handling preserves it; the
    kick and tab-close handlers preserve it provided "#general" is still
    a member of the joined set after the removal — when the removed room
    is "#general" itself and was current (the counterexample), the
    pointer is set to "#general" without membership until the requested
    re-join is confirmed. -/
theorem current_room_invariant_ops (s : ClientState) (room : String)
    (rjoin : Option String) (reason : Option String) :
    (roomInvariantB s = true → roomInvariantB (cleanupMpRoom s room) = true) ∧
    (room ∈ s.joinedRooms → roomInvariantB (switchTo s room).1 = true) ∧
    (roomInvariantB s = true → roomInvariantB (joinedRoomHandler s rjoin).1 = true) ∧
    (roomInvariantB s = true → "#general" ∈ s.joinedRooms.erase room →
      roomInvariantB (userKickedHandler s room reason).1 = true) ∧
    (roomInvariantB s = true → "#general" ∈ s.joinedRooms.erase room →
      roomInvariantB (tabCloseHandler s room).1 = true) := by
  refine ⟨?_, ?_, ?_, ?_, ?_⟩
  · -- cleanupMpRoom
    intro h
    unfold cleanupMpRoom
    by_cases hr : room = ""
    · rw [if_pos hr]; exact h
    · rw [if_neg hr]
      simp only [clearMpPeer, if_neg hr]
      by_cases hc : s.currentRoom = some room
      · simp only [hc, if_pos rfl]
        cases hj : s.joinedRooms.filter (fun r => r ≠ room) with
        | nil => simp [roomInvariantB]
        | cons hd tl =>
            simp only [roomInvariantB, hj]
            exact (contains_iff_mem _ _).mpr (List.mem_cons_self hd tl)
      · simp only [if_neg hc]
        unfold roomInvariantB at h ⊢
        cases hcur : s.currentRoom with
        | none => simp
        | some r =>
            rw [hcur] at h hc
            have hmem : r ∈ s.joinedRooms := (contains_iff_mem _ _).mp h
            have hne : r ≠ room := fun he => hc (by rw [he])
            exact (contains_iff_mem _ _).mpr
              (List.mem_filter.mpr ⟨hmem, by simpa using hne⟩)
  · -- switchTo with a joined room
    intro hm
    simp only [switchTo, roomInvariantB]
    exact (contains_iff_mem _ _).mpr hm
  · -- joined_room handler
    intro h
    unfold joinedRoomHandler
    by_cases ht : truthyO rjoin = true
    · rw [if_pos ht]
      by_cases hcont : s.joinedRooms.contains (rjoin.getD "") = true
      · simp only [hcont, if_true, switchTo, roomInvariantB]
      · simp only [hcont, if_false, Bool.false_eq_true, addJoinedRoom,
          switchTo, roomInvariantB]
        exact (contains_iff_mem _ _).mpr (List.mem_append_right _ (by simp))
    · rw [if_neg ht]; exact h
  · -- user_kicked handler
    intro h hg
    unfold userKickedHandler
    obtain ⟨_, f2, f3, _, _⟩ :=
      appendSystemMessage_frame s room (jsOrD reason "You were kicked.")
    by_cases hm : room ∈ (appendSystemMessage s room (jsOrD reason "You were kicked.")).joinedRooms
    · simp only [if_pos hm]
      by_cases hc : (appendSystemMessage s room (jsOrD reason "You were kicked.")).currentRoom
          = some room
      · simp only [hc, if_pos rfl, switchTo, roomInvariantB]
        rw [f3]
        exact (contains_iff_mem _ _).mpr hg
      · simp only [if_neg hc]
        rcases roomInvariantB_dest h with hnone | ⟨r, hcur, hmem⟩
        · exact roomInvariantB_none (f2.trans hnone)
        · have hne : r ≠ room := fun he => hc (f2.trans (hcur.trans (by rw [he])))
          refine roomInvariantB_some (f2.trans hcur) ?_
          show r ∈ ((appendSystemMessage s room
            (jsOrD reason "You were kicked.")).joinedRooms.erase room)
          rw [f3]
          exact (List.mem_erase_of_ne hne).mpr hmem
    · simp only [if_neg hm]
      rw [f3] at hm
      have herase : s.joinedRooms.erase room = s.joinedRooms :=
        List.erase_of_not_mem hm
      rw [herase] at hg
      by_cases hc : (appendSystemMessage s room (jsOrD reason "You were kicked.")).currentRoom
          = some room
      · simp only [hc, if_pos rfl, switchTo, roomInvariantB]
        rw [f3]
        exact (contains_iff_mem _ _).mpr hg
      · simp only [if_neg hc]
        rcases roomInvariantB_dest h with hnone | ⟨r, hcur, hmem⟩
        · exact roomInvariantB_none (f2.trans hnone)
        · refine roomInvariantB_some (f2.trans hcur) ?_
          show r ∈ (appendSystemMessage s room
            (jsOrD reason "You were kicked.")).joinedRooms
          rw [f3]
          exact hmem
  · -- tab close handler
    intro h hg
    unfold tabCloseHandler
    by_cases hm : room ∈ s.joinedRooms
    · simp only [if_pos hm]
      by_cases hc : s.currentRoom = some room
      · simp only [hc, if_pos rfl, switchTo, roomInvariantB]
        exact (contains_iff_mem _ _).mpr hg
      · simp only [if_neg hc]
        unfold roomInvariantB at h ⊢
        cases hcur : s.currentRoom with
        | none => simp
        | some r =>
            rw [hcur] at h hc
            have hmem : r ∈ s.joinedRooms := (contains_iff_mem _ _).mp h
            have hne : r ≠ room := fun he => hc (by rw [he])
            exact (contains_iff_mem _ _).mpr ((List.mem_erase_of_ne hne).mpr hmem)
    · simp only [if_neg hm]
      by_cases hc : s.currentRoom = some room
      · simp only [hc, if_pos rfl, switchTo, roomInvariantB]
        rw [List.erase_of_not_mem hm] at hg
        exact (contains_iff_mem _ _).mpr hg
      · simp only [if_neg hc]
        exact h

/-- C5 witness: the invariant-preservation theorem applied at a concrete
    state for a private-room cleanup, a switch, a join, a kick of a
    non-current room, and a tab close. -/
theorem current_room_invariant_ops_witness :
    roomInvariantB (cleanupMpRoom stC4 "@mp_1") = true ∧
    roomInvariantB (switchTo stC4 "#general").1 = true ∧
    roomInvariantB (joinedRoomHandler stC4 (some "#rand")).1 = true ∧
    roomInvariantB (userKickedHandler stC4 "@mp_1" none).1 = true ∧
    roomInvariantB (tabCloseHandler stC4 "@mp_1").1 = true := by
  have h := current_room_invariant_ops stC4 "@mp_1" (some "#rand") none
  exact ⟨h.1 (by decide), h.2.1 (by decide), h.2.2.1 (by decide),
    h.2.2.2.1 (by decide) (by decide), h.2.2.2.2 (by decide) (by decide)⟩

/-! ### C7 — sending into a private room whose peer mapping is gone -/

theorem appendSystemMessage_domLog_current (s : ClientState) (room msg : String)
    (h : s.currentRoom = some room) :
    (appendSystemMessage s room msg).domLog
      = s.domLog ++ [DomOp.append (Artifact.system msg)] := by
  obtain ⟨_, f2, _, _, _, f6⟩ := pushRoom_frame s room (Artifact.system msg)
  unfold appendSystemMessage
  rw [if_pos (f2.trans h)]
  simpa using congrArg (fun l => l ++ [DomOp.append (Artifact.system msg)]) f6

theorem appendSystemMessage_roomMessages (s : ClientState) (room msg : String) :
    (appendSystemMessage s room msg).roomMessages
      = (pushRoom s room (Artifact.system msg)).roomMessages := by
  unfold appendSystemMessage
  by_cases hc : (pushRoom s room (Artifact.system msg)).currentRoom = some room
  · rw [if_pos hc]
  · rw [if_neg hc]

theorem cleanupMpRoom_fields (s : ClientState) (room : String) (h : room ≠ "") :
    (cleanupMpRoom s room).joinedRooms = s.joinedRooms.filter (fun r => r ≠ room) ∧
    (cleanupMpRoom s room).mpPeerByRoom = eraseA s.mpPeerByRoom room ∧
    (cleanupMpRoom s room).roomMessages = eraseA s.roomMessages room ∧
    (cleanupMpRoom s room).domLog = s.domLog ∧
    (cleanupMpRoom s room).echoBuffer = s.echoBuffer := by
  unfold cleanupMpRoom clearMpPeer
  simp only [if_neg h]
  split
  · split <;> exact ⟨rfl, rfl, rfl, rfl, rfl⟩
  · exact ⟨rfl, rfl, rfl, rfl, rfl⟩

/-- C7: a send attempted while the current room is a private room with no
    peer mapping emits no private_message — the only outbound intent is
    the "#general" join request — appends the "no longer available"
    system message to the DOM for that room before the view switches,
    removes the room's membership, peer mapping and stored log, and
    reverts the current room to "#general". -/
theorem send_private_no_peer_recovery (s : ClientState) (raw : String) (now : Nat)
    (room : String)
    (hcur : s.currentRoom = some room)
    (hroomne : room ≠ "")
    (hmp : jsStartsWith room "@" = true)
    (htrim : jsTrim raw ≠ "")
    (hnotmp : jsStartsWith (jsTrim raw) "/mp " = false)
    (hpeer : getMpPeer s room = none) :
    (sendMessage s raw now).2 = [Emit.join "#general"] ∧
    (sendMessage s raw now).1.currentRoom = some "#general" ∧
    room ∉ (sendMessage s raw now).1.joinedRooms ∧
    getMpPeer (sendMessage s raw now).1 room = none ∧
    lookupA (sendMessage s raw now).1.roomMessages room = none ∧
    (sendMessage s raw now).1.domLog = s.domLog ++
      [DomOp.append (Artifact.system "This private conversation is no longer available."),
       DomOp.replace (getLog s "#general")] := by
  have hroomg : room ≠ "#general" := by
    intro he; subst he; exact absurd hmp (by decide)
  have hresolve : jsOrD s.currentRoom "#general" = room := by
    rw [hcur]; simp [jsOrD, hroomne]
  set sys : String := "This private conversation is no longer available." with hsys
  set s1 := appendSystemMessage s room sys with hs1
  obtain ⟨_, f2, f3, f4, _⟩ := appendSystemMessage_frame s room sys
  have hs1cur : s1.currentRoom = some room := f2.trans hcur
  have hs1dom : s1.domLog = s.domLog ++ [DomOp.append (Artifact.system sys)] :=
    appendSystemMessage_domLog_current s room sys hcur
  have hs1look : lookupA s1.roomMessages "#general" = lookupA s.roomMessages "#general" := by
    rw [hs1, appendSystemMessage_roomMessages]
    exact lookupA_pushRoom_ne s room "#general" (Artifact.system sys) hroomg
  -- unfold the sender down to the no-peer branch
  have hsend : sendMessage s raw now =
      (let s2 := cleanupMpRoom s1 room
       let p := switchTo s2 "#general"
       (p.1, p.2 ++ [Emit.join "#general"])) := by
    unfold sendMessage
    rw [if_neg htrim, hresolve, hnotmp]
    simp only [Bool.false_eq_true, if_false, hmp, if_pos rfl, hpeer, if_true]
  -- cleanupMpRoom facts
  set s2 := cleanupMpRoom s1 room with hs2
  have hcl0 := cleanupMpRoom_fields s1 room hroomne
  have hcl : s2.joinedRooms = s1.joinedRooms.filter (fun r => r ≠ room) ∧
      s2.mpPeerByRoom = eraseA s1.mpPeerByRoom room ∧
      s2.roomMessages = eraseA s1.roomMessages room ∧
      s2.domLog = s1.domLog :=
    ⟨hcl0.1, hcl0.2.1, hcl0.2.2.1, hcl0.2.2.2.1⟩
  rw [hsend]
  refine ⟨?_, ?_, ?_, ?_, ?_, ?_⟩
  · show (if jsStartsWith "#general" "@" then [Emit.switchPrivate "#general"] else [])
        ++ [Emit.join "#general"] = [Emit.join "#general"]
    rw [if_neg (by decide)]
    rfl
  · rfl
  · show room ∉ s2.joinedRooms
    rw [hcl.1]
    intro hmem
    have := (List.mem_filter.mp hmem).2
    simp at this
  · show getMpPeer ((switchTo s2 "#general").1) room = none
    unfold getMpPeer switchTo
    show (match lookupA s2.mpPeerByRoom room with
      | some p => if p = "" then none else some p
      | none => none) = none
    rw [hcl.2.1, lookupA_eraseA_self]
  · show lookupA s2.roomMessages room = none
    rw [hcl.2.2.1, lookupA_eraseA_self]
  · show s2.domLog ++ [DomOp.replace ((lookupA s2.roomMessages "#general").getD [])]
        = s.domLog ++ [DomOp.append (Artifact.system sys), DomOp.replace (getLog s "#general")]
    rw [hcl.2.2.2, hs1dom]
    rw [hcl.2.2.1, lookupA_eraseA_ne _ _ _ hroomg, hs1look]
    simp [getLog]

def stC7 : ClientState :=
  { myPseudo := "alice", myUserColor := none, myIsAdmin := false, myIsMod := false,
    joinedRooms := ["#general", "@mp_1"], currentRoom := some "@mp_1",
    roomMessages := [("#general", [Artifact.system "w"]), ("@mp_1", [])],
    mpPeerByRoom := [], echoBuffer := [], domLog := [] }

/-- C7 witness: concrete send in a current private room with an empty
    peer map. -/
theorem send_private_no_peer_recovery_witness :
    (sendMessage stC7 "hello" 1000).2 = [Emit.join "#general"] ∧
    (sendMessage stC7 "hello" 1000).1.currentRoom = some "#general" ∧
    (sendMessage stC7 "hello" 1000).1.domLog =
      [DomOp.append (Artifact.system "This private conversation is no longer available."),
       DomOp.replace [Artifact.system "w"]] := by
  have h := send_private_no_peer_recovery stC7 "hello" 1000 "@mp_1" (by rfl) (by decide)
    (by decide) (by decide) (by decide) (by rfl)
  refine ⟨h.1, h.2.1, ?_⟩
  rw [h.2.2.2.2.2]
  decide

/-! ### C1 — a locally rendered public message is not rendered again on
    its server echo -/

theorem dropWhile_append_fresh (P : EchoEntry → Bool) (l : List EchoEntry) (e : EchoEntry)
    (he : P e = false) : ∃ pre, (l ++ [e]).dropWhile P = pre ++ [e] := by
  induction l with
  | nil => exact ⟨[], by simp [List.dropWhile, he]⟩
  | cons x xs ih =>
      by_cases hx : P x = true
      · obtain ⟨pre, hpre⟩ := ih
        exact ⟨pre, by simpa [List.dropWhile, hx] using hpre⟩
      · exact ⟨x :: xs, by simp [List.dropWhile, hx]⟩

theorem rememberLocalEcho_structure (buf : List EchoEntry) (now : Nat) (room text : String) :
    ∃ pre, rememberLocalEcho buf now room text
      = pre ++ [⟨jsOrS room "", _normalizeText text, now⟩] := by
  simp only [rememberLocalEcho]
  have he : staleAt now (⟨jsOrS room "", _normalizeText text, now⟩ : EchoEntry) = false := by
    simp [staleAt]
  by_cases hlen : (buf ++ [(⟨jsOrS room "", _normalizeText text, now⟩ : EchoEntry)]).length
      > LOCAL_ECHO_MAX
  · rw [if_pos hlen]
    have hk : (buf ++ [(⟨jsOrS room "", _normalizeText text, now⟩ : EchoEntry)]).length
        - LOCAL_ECHO_MAX ≤ buf.length := by
      simp only [List.length_append, List.length_cons, List.length_nil, LOCAL_ECHO_MAX]
      omega
    rw [List.drop_append_of_le_length hk]
    exact dropWhile_append_fresh _ _ _ he
  · rw [if_neg hlen]
    exact dropWhile_append_fresh _ _ _ he

theorem findRemoveLast_isSome_of_mem (p : EchoEntry → Bool) (l : List EchoEntry)
    (e : EchoEntry) (hmem : e ∈ l) (hp : p e = true) :
    ∃ res, findRemoveLast p l = some res := by
  cases hfind : findRemoveLast p l with
  | some res => exact ⟨res, rfl⟩
  | none =>
      have := (findRemoveLast_none_iff p l).mp hfind e hmem
      rw [hp] at this
      exact absurd this (by simp)

theorem getLog_domLog_irrel (x : ClientState) (d : List DomOp) (room : String) :
    getLog { x with domLog := d } room = getLog x room := rfl

theorem getLog_echoBuffer_irrel (x : ClientState) (b : List EchoEntry) (room : String) :
    getLog { x with echoBuffer := b } room = getLog x room := rfl

/-- C1: a public message rendered optimistically by appendLocalMessage
    and then delivered back by the server for the same room with the
    same normalized nonempty text within the 5-second window leaves the
    room log with exactly the one locally rendered artifact — the echo
    is suppressed (either by the pseudo guard or by consuming the
    local-echo buffer entry), not appended a second time. -/
theorem public_echo_rendered_once (s : ClientState) (room pseudo text : String)
    (isSelf : Bool) (original translated : Option String) (data : MsgData)
    (now1 now2 : Nat)
    (hroomne : room ≠ "")
    (hroompub : jsStartsWith room "@" = false)
    (hdroom : data.room = some room)
    (hdpriv : data.is_private ≠ some true)
    (hsame : incomingTextOf data = _normalizeText (original.getD text))
    (hne : incomingTextOf data ≠ "")
    (hwin : now2 ≤ now1 + 5000) :
    getLog (handleIncomingMessage
        (appendLocalMessage s room pseudo text isSelf original translated now1) data now2) room
      = getLog s room ++
        [Artifact.msg (some pseudo) (some (jsOrD translated text))
          (some (original.getD text))
          (if pseudo = s.myPseudo then s.myUserColor else none)
          (some (now1 / 1000)) isSelf s.myIsAdmin s.myIsMod] := by
  set s1 := appendLocalMessage s room pseudo text isSelf original translated now1 with hs1
  have h1log : getLog s1 room = getLog s room ++
      [Artifact.msg (some pseudo) (some (jsOrD translated text))
        (some (original.getD text))
        (if pseudo = s.myPseudo then s.myUserColor else none)
        (some (now1 / 1000)) isSelf s.myIsAdmin s.myIsMod] := by
    rw [hs1]
    simp only [appendLocalMessage]
    split <;> split <;>
      rw [getLog_domLog_irrel, getLog_pushRoom, getLog_echoBuffer_irrel]
  have hpushbuf : ∀ (X : ClientState) (r : String) (a : Artifact),
      (pushRoom X r a).echoBuffer = X.echoBuffer :=
    fun X r a => (pushRoom_frame X r a).2.2.2.2.1
  have h1buf : s1.echoBuffer
      = rememberLocalEcho s.echoBuffer now1 room (original.getD text) := by
    rw [hs1]
    simp only [appendLocalMessage]
    split <;> split <;> simp [hpushbuf]
  have hres : resolveIncomingRoom s1 data = room := by
    unfold resolveIncomingRoom
    rw [hdroom]
    simp [jsOrD, hroomne]
  have hpriv2 : decide (data.is_private = some true) = false := by simpa using hdpriv
  obtain ⟨pre, hpre⟩ := rememberLocalEcho_structure s.echoBuffer now1 room (original.getD text)
  have hfresh : staleAt now2
      (⟨jsOrS room "", _normalizeText (original.getD text), now1⟩ : EchoEntry) = false := by
    simp only [staleAt, LOCAL_ECHO_TTL_MS]
    simp only [decide_eq_false_iff_not]
    omega
  obtain ⟨pre2, hpre2⟩ := dropWhile_append_fresh (staleAt now2) pre _ hfresh
  have hdup : ∃ b, isServerEchoDuplicate s1.echoBuffer now2 room data = (true, b) := by
    rw [h1buf, hpre]
    simp only [isServerEchoDuplicate]
    rw [if_neg hne, hpre2]
    have hp : (fun e => decide (e.room = jsOrS room "" ∧ e.text = incomingTextOf data))
        (⟨jsOrS room "", _normalizeText (original.getD text), now1⟩ : EchoEntry) = true := by
      simp [hsame]
    obtain ⟨res, hres2⟩ := findRemoveLast_isSome_of_mem
      (fun e => decide (e.room = jsOrS room "" ∧ e.text = incomingTextOf data))
      (pre2 ++ [(⟨jsOrS room "", _normalizeText (original.getD text), now1⟩ : EchoEntry)])
      (⟨jsOrS room "", _normalizeText (original.getD text), now1⟩ : EchoEntry) (by simp) hp
    rw [hres2]
    exact ⟨res, rfl⟩
  obtain ⟨b, hdupb⟩ := hdup
  simp only [handleIncomingMessage, hres, hpriv2, hroompub, Bool.or_self,
    Bool.false_and, Bool.not_false, Bool.true_and, Bool.false_eq_true, if_false]
  by_cases hps : (data.pseudo == some s1.myPseudo) = true
  · simp only [hps, if_true]
    exact h1log
  · simp only [hps, Bool.false_eq_true, if_false]
    rw [hdupb]
    simp only [if_true]
    rw [getLog_echoBuffer_irrel]
    exact h1log

def stC1 : ClientState :=
  { myPseudo := "alice", myUserColor := none, myIsAdmin := false, myIsMod := false,
    joinedRooms := ["#general"], currentRoom := some "#general",
    roomMessages := [("#general", [])], mpPeerByRoom := [], echoBuffer := [],
    domLog := [] }

def dataC1 : MsgData :=
  { room := some "#general", is_private := none, with_ := none,
    pseudo := some "Lexyo", translated := some "hi", original := some "hi",
    color := none, timestamp := some 2, is_admin := none, is_mod := none }

/-- C1 witness: a concrete "hi" sent in "#general", echoed one second
    later under a rewritten author pseudo, leaves exactly the single
    optimistic artifact in the room log. -/
theorem public_echo_rendered_once_witness :
    getLog (handleIncomingMessage
        (appendLocalMessage stC1 "#general" "alice" "hi" true (some "hi") (some "hi") 1000)
        dataC1 2000) "#general"
      = [Artifact.msg (some "alice") (some "hi") (some "hi") none (some 1) true
          false false] := by
  have h := public_echo_rendered_once stC1 "#general" "alice" "hi" true (some "hi")
    (some "hi") dataC1 1000 2000 (by decide) (by decide) (by rfl) (by decide)
    (by decide) (by decide) (by omega)
  rw [h]
  decide

/-! ### C2 — the shape of the duplicate check -/

def bufC2 : List EchoEntry := [⟨"x", "", 5000⟩]

def dataC2 : MsgData :=
  { room := none, is_private := none, with_ := none, pseudo := none,
    translated := none, original := some " ", color := none, timestamp := none,
    is_admin := none, is_mod := none }

/-- C2 counterexample: with incoming original " " (normalized text "")
    the check returns false and leaves the buffer untouched, although
    the buffer holds the exact in-window (room, text) match ("x", "")
    that the claimed most-recent-first scan would consume; a second
    concrete call with a stale entry shows that the claimed purge of
    entries older than the window is also skipped on such calls. -/
theorem isServerEchoDuplicate_empty_counterexample :
    isServerEchoDuplicate bufC2 6000 "x" dataC2 = (false, bufC2) ∧
    isServerEchoDuplicate [⟨"y", "q", 0⟩] 999999 "y" dataC2
      = (false, [⟨"y", "q", 0⟩]) := by
  exact ⟨by decide, by decide⟩

/-- C2 (amended): for nonempty normalized incoming text the check purges
    the stale prefix, scans the purged buffer from most recent to oldest
    for an exact (room, text) match, removes exactly that one entry and
    returns true (and returns false on the purged buffer when no entry
    matches); when the normalized incoming text is empty it returns
    false immediately with the buffer unchanged (no purge, no consume);
    consequently, when the purged buffer holds exactly one matching
    entry, the call returns true and an identical second call is no
    longer suppressed by the consumed entry. -/
theorem isServerEchoDuplicate_spec (buf : List EchoEntry) (now : Nat) (room : String)
    (data : MsgData) :
    (incomingTextOf data = "" →
      isServerEchoDuplicate buf now room data = (false, buf)) ∧
    (incomingTextOf data ≠ "" →
      ((isServerEchoDuplicate buf now room data).1 = false →
        isServerEchoDuplicate buf now room data = (false, buf.dropWhile (staleAt now)) ∧
        ∀ e ∈ buf.dropWhile (staleAt now),
          (fun e => decide (e.room = jsOrS room "" ∧ e.text = incomingTextOf data)) e
            = false) ∧
      ((isServerEchoDuplicate buf now room data).1 = true →
        ∃ pre e post, buf.dropWhile (staleAt now) = pre ++ e :: post ∧
          (fun e => decide (e.room = jsOrS room "" ∧ e.text = incomingTextOf data)) e
            = true ∧
          (∀ x ∈ post,
            (fun e => decide (e.room = jsOrS room "" ∧ e.text = incomingTextOf data)) x
              = false) ∧
          isServerEchoDuplicate buf now room data = (true, pre ++ post)) ∧
      ((buf.dropWhile (staleAt now)).countP
          (fun e => decide (e.room = jsOrS room "" ∧ e.text = incomingTextOf data)) = 1 →
        (isServerEchoDuplicate buf now room data).1 = true ∧
        (isServerEchoDuplicate (isServerEchoDuplicate buf now room data).2
          now room data).1 = false)) := by
  constructor
  · intro hinc
    simp only [isServerEchoDuplicate]
    rw [if_pos hinc]
  · intro hinc
    refine ⟨?_, ?_, ?_⟩
    · intro hfalse
      simp only [isServerEchoDuplicate] at hfalse ⊢
      rw [if_neg hinc] at hfalse ⊢
      cases hfind : findRemoveLast
          (fun e => decide (e.room = jsOrS room "" ∧ e.text = incomingTextOf data))
          (buf.dropWhile (staleAt now)) with
      | some b => rw [hfind] at hfalse; exact absurd hfalse (by simp)
      | none => exact ⟨rfl, (findRemoveLast_none_iff _ _).mp hfind⟩
    · intro htrue
      simp only [isServerEchoDuplicate] at htrue ⊢
      rw [if_neg hinc] at htrue ⊢
      cases hfind : findRemoveLast
          (fun e => decide (e.room = jsOrS room "" ∧ e.text = incomingTextOf data))
          (buf.dropWhile (staleAt now)) with
      | none => rw [hfind] at htrue; exact absurd htrue (by simp)
      | some b =>
          obtain ⟨pre, e, post, hsplit, hpe, hpost, hres⟩ :=
            findRemoveLast_some _ _ _ hfind
          exact ⟨pre, e, post, hsplit, hpe, hpost, by rw [hres]⟩
    · intro hcount
      have hpos : 0 < (buf.dropWhile (staleAt now)).countP
          (fun e => decide (e.room = jsOrS room "" ∧ e.text = incomingTextOf data)) := by
        omega
      obtain ⟨e, hmem, hpe⟩ := List.countP_pos_iff.mp hpos
      obtain ⟨res, hres⟩ := findRemoveLast_isSome_of_mem
        (fun e => decide (e.room = jsOrS room "" ∧ e.text = incomingTextOf data))
        (buf.dropWhile (staleAt now)) e hmem (by simpa using hpe)
      have hfirst : isServerEchoDuplicate buf now room data = (true, res) := by
        simp only [isServerEchoDuplicate]
        rw [if_neg hinc, hres]
      obtain ⟨pre, e2, post, hsplit, hpe2, hpost, hres2⟩ := findRemoveLast_some _ _ _ hres
      refine ⟨by rw [hfirst], ?_⟩
      rw [hfirst]
      have hcount2 : (pre ++ e2 :: post).countP
          (fun e => decide (e.room = jsOrS room "" ∧ e.text = incomingTextOf data)) = 1 := by
        rw [← hsplit]; exact hcount
      have hzero : (pre ++ post).countP
          (fun e => decide (e.room = jsOrS room "" ∧ e.text = incomingTextOf data)) = 0 := by
        simp only [List.countP_append, List.countP_cons, hpe2, if_true] at hcount2 ⊢
        omega
      have hsub : ∀ x ∈ pre ++ post,
          (fun e => decide (e.room = jsOrS room "" ∧ e.text = incomingTextOf data)) x
            = false := by
        intro x hx
        have := List.countP_eq_zero.mp hzero x hx
        simpa using this
      simp only [isServerEchoDuplicate]
      rw [if_neg hinc]
      rw [hres2]
      cases hfind2 : findRemoveLast
          (fun e => decide (e.room = jsOrS room "" ∧ e.text = incomingTextOf data))
          ((pre ++ post).dropWhile (staleAt now)) with
      | none => rfl
      | some b2 =>
          obtain ⟨pre3, e3, post3, hsplit3, hpe3, _, _⟩ :=
            findRemoveLast_some _ _ _ hfind2
          have he3 : e3 ∈ pre ++ post := by
            have hsubl := (List.dropWhile_sublist (l := pre ++ post) (p := staleAt now)).subset
            exact hsubl (by rw [hsplit3]; exact List.mem_append_right _ (List.mem_cons_self _ _))
          exact absurd hpe3 (by simp [hsub e3 he3])

def dataC2b : MsgData :=
  { room := none, is_private := none, with_ := none, pseudo := none,
    translated := none, original := some "hi", color := none, timestamp := none,
    is_admin := none, is_mod := none }

/-- C2 witness: one remembered "hi" entry — the first check consumes it
    and returns true, an identical second check returns false. -/
theorem isServerEchoDuplicate_spec_witness :
    (isServerEchoDuplicate [⟨"#general", "hi", 1000⟩] 2000 "#general" dataC2b).1 = true ∧
    (isServerEchoDuplicate
        (isServerEchoDuplicate [⟨"#general", "hi", 1000⟩] 2000 "#general" dataC2b).2
        2000 "#general" dataC2b).1 = false := by
  have h := isServerEchoDuplicate_spec [⟨"#general", "hi", 1000⟩] 2000 "#general" dataC2b
  exact (h.2 (by decide)).2.2 (by decide)

/-! ### C3 — echo-buffer bounds, freshness at reads, FIFO eviction -/

theorem dropWhile_eq_self_of_fresh (P : EchoEntry → Bool) (l : List EchoEntry)
    (h : ∀ e ∈ l, P e = false) : l.dropWhile P = l := by
  cases l with
  | nil => rfl
  | cons x xs =>
      exact List.dropWhile_cons_of_neg (by simp [h x (by simp)])

theorem rememberLocalEcho_sublist (buf : List EchoEntry) (now : Nat) (room text : String) :
    (rememberLocalEcho buf now room text).Sublist
      (buf ++ [⟨jsOrS room "", _normalizeText text, now⟩]) := by
  simp only [rememberLocalEcho]
  refine (List.dropWhile_sublist _).trans ?_
  split
  · exact List.drop_sublist _ _
  · exact List.Sublist.refl _

theorem rememberLocalEcho_suffix (buf : List EchoEntry) (now : Nat) (room text : String) :
    (rememberLocalEcho buf now room text).IsSuffix
      (buf ++ [⟨jsOrS room "", _normalizeText text, now⟩]) := by
  simp only [rememberLocalEcho]
  refine (List.dropWhile_suffix _).trans ?_
  split
  · exact List.drop_suffix _ _
  · exact List.suffix_refl _

theorem rememberLocalEcho_length_le (buf : List EchoEntry) (now : Nat) (room text : String) :
    (rememberLocalEcho buf now room text).length ≤ LOCAL_ECHO_MAX := by
  simp only [rememberLocalEcho]
  refine le_trans (List.dropWhile_sublist _).length_le ?_
  split
  · next h =>
      rw [List.length_drop]
      omega
  · next h => omega

theorem mem_dropWhile_fresh (c : Nat) (l : List EchoEntry)
    (hs : List.Pairwise (fun a b => a.ts ≤ b.ts) l) (e : EchoEntry)
    (he : e ∈ l.dropWhile (staleAt c)) : staleAt c e = false := by
  induction l with
  | nil => simp at he
  | cons x xs ih =>
      by_cases hx : staleAt c x = true
      · rw [List.dropWhile_cons_of_pos hx] at he
        exact ih (List.Pairwise.of_cons hs) he
      · rw [List.dropWhile_cons_of_neg (by simpa using hx)] at he
        rcases List.mem_cons.mp he with rfl | he2
        · simpa using hx
        · have hle : x.ts ≤ e.ts := (List.pairwise_cons.mp hs).1 e he2
          have hx2 : staleAt c x = false := by simpa using hx
          simp only [staleAt, LOCAL_ECHO_TTL_MS, decide_eq_false_iff_not] at hx2 ⊢
          omega

/-- C3: over every call sequence starting from the empty buffer the echo
    buffer holds at most 25 entries (each remember caps at 25, each
    duplicate check never grows it); eviction is FIFO by insertion
    order — the remembered buffer is a suffix of the old buffer with the
    new entry appended, a non-full fresh buffer is extended without
    eviction, and a full fresh buffer drops exactly its oldest entry;
    and at any read that consults the buffer (nonempty normalized
    incoming text) every retained entry is within the 5-second window,
    given the timestamp-sortedness that remember and the check both
    preserve under a monotone clock. -/
theorem echo_buffer_invariants :
    (∀ ops : List EchoOp, (runEcho ops []).length ≤ LOCAL_ECHO_MAX) ∧
    (∀ buf now room text,
      (rememberLocalEcho buf now room text).length ≤ LOCAL_ECHO_MAX) ∧
    (∀ buf now room text,
      (rememberLocalEcho buf now room text).IsSuffix
        (buf ++ [⟨jsOrS room "", _normalizeText text, now⟩])) ∧
    (∀ buf now room text, (∀ e ∈ buf, staleAt now e = false) →
      buf.length < LOCAL_ECHO_MAX →
      rememberLocalEcho buf now room text
        = buf ++ [⟨jsOrS room "", _normalizeText text, now⟩]) ∧
    (∀ buf now room text, (∀ e ∈ buf, staleAt now e = false) →
      buf.length = LOCAL_ECHO_MAX →
      rememberLocalEcho buf now room text
        = buf.drop 1 ++ [⟨jsOrS room "", _normalizeText text, now⟩]) ∧
    (∀ buf now room data,
      (isServerEchoDuplicate buf now room data).2.length ≤ buf.length) ∧
    (∀ buf now room data, List.Pairwise (fun a b => a.ts ≤ b.ts) buf →
      incomingTextOf data ≠ "" →
      ∀ e ∈ (isServerEchoDuplicate buf now room data).2, staleAt now e = false) ∧
    (∀ buf now room text, List.Pairwise (fun a b => a.ts ≤ b.ts) buf →
      (∀ e ∈ buf, e.ts ≤ now) →
      List.Pairwise (fun a b => a.ts ≤ b.ts) (rememberLocalEcho buf now room text) ∧
      ∀ e ∈ rememberLocalEcho buf now room text, e.ts ≤ now) ∧
    (∀ buf now room data, List.Pairwise (fun a b => a.ts ≤ b.ts) buf →
      List.Pairwise (fun a b => a.ts ≤ b.ts) (isServerEchoDuplicate buf now room data).2) := by
  have hlen := rememberLocalEcho_length_le
  have hdup_le : ∀ buf now room data,
      (isServerEchoDuplicate buf now room data).2.length ≤ buf.length :=
    fun buf now room data => (isServerEchoDuplicate_sublist buf now room data).length_le
  refine ⟨?_, hlen, rememberLocalEcho_suffix, ?_, ?_, hdup_le, ?_, ?_, ?_⟩
  · -- bounded over every call sequence
    intro ops
    suffices h : ∀ (ops : List EchoOp) (buf : List EchoEntry),
        buf.length ≤ LOCAL_ECHO_MAX → (runEcho ops buf).length ≤ LOCAL_ECHO_MAX by
      exact h ops [] (by simp [LOCAL_ECHO_MAX])
    intro ops
    induction ops with
    | nil => intro buf h; simpa [runEcho] using h
    | cons op rest ih =>
        intro buf h
        cases op with
        | rem now room text => exact ih _ (hlen buf now room text)
        | dup now room data => exact ih _ (le_trans (hdup_le buf now room data) h)
  · -- no eviction below the cap
    intro buf now room text hfresh hlt
    simp only [rememberLocalEcho]
    rw [if_neg (by simp only [List.length_append, List.length_cons, List.length_nil]; omega)]
    refine dropWhile_eq_self_of_fresh _ _ ?_
    intro e he
    rcases List.mem_append.mp he with h1 | h2
    · exact hfresh e h1
    · rcases List.mem_cons.mp h2 with rfl | h3
      · simp [staleAt]
      · simp at h3
  · -- cap exceeded: the single oldest entry is evicted
    intro buf now room text hfresh hlen25
    simp only [rememberLocalEcho]
    rw [if_pos (by simp only [List.length_append, List.length_cons, List.length_nil]; omega)]
    have hk : (buf ++ [(⟨jsOrS room "", _normalizeText text, now⟩ : EchoEntry)]).length
        - LOCAL_ECHO_MAX = 1 := by
      simp only [List.length_append, List.length_cons, List.length_nil]
      omega
    rw [hk, List.drop_append_of_le_length (by rw [hlen25]; decide)]
    refine dropWhile_eq_self_of_fresh _ _ ?_
    intro e he
    rcases List.mem_append.mp he with h1 | h2
    · exact hfresh e (List.drop_subset _ _ h1)
    · rcases List.mem_cons.mp h2 with rfl | h3
      · simp [staleAt]
      · simp at h3
  · -- reads see only fresh entries
    intro buf now room data hs hinc e he
    have hsub : (isServerEchoDuplicate buf now room data).2 ⊆ buf.dropWhile (staleAt now) := by
      simp only [isServerEchoDuplicate]
      rw [if_neg hinc]
      cases hfind : findRemoveLast
          (fun e => decide (e.room = jsOrS room "" ∧ e.text = incomingTextOf data))
          (buf.dropWhile (staleAt now)) with
      | some b => exact fun x hx => (findRemoveLast_sublist _ _ _ hfind).subset hx
      | none => exact fun x hx => hx
    exact mem_dropWhile_fresh now buf hs e (hsub he)
  · -- remember preserves sortedness under a monotone clock
    intro buf now room text hs hb
    have hpair : List.Pairwise (fun a b => a.ts ≤ b.ts)
        (buf ++ [(⟨jsOrS room "", _normalizeText text, now⟩ : EchoEntry)]) := by
      rw [List.pairwise_append]
      exact ⟨hs, List.pairwise_singleton _ _, by
        intro a ha b hb2
        rcases List.mem_cons.mp hb2 with rfl | h3
        · exact hb a ha
        · simp at h3⟩
    have hsub := rememberLocalEcho_sublist buf now room text
    constructor
    · exact hpair.sublist hsub
    · intro e he
      rcases List.mem_append.mp (hsub.subset he) with h1 | h2
      · exact hb e h1
      · rcases List.mem_cons.mp h2 with rfl | h3
        · exact le_refl now
        · simp at h3
  · -- the duplicate check preserves sortedness
    intro buf now room data hs
    exact hs.sublist (isServerEchoDuplicate_sublist buf now room data)

def bufC3 : List EchoEntry :=
  (List.range LOCAL_ECHO_MAX).map (fun i => ⟨"r", String.mk [Char.ofNat (65 + i)], 1000⟩)

def dataC3 : MsgData :=
  { room := none, is_private := none, with_ := none, pseudo := none,
    translated := none, original := some "hi", color := none, timestamp := none,
    is_admin := none, is_mod := none }

/-- C3 witness: a full fresh 25-entry buffer evicts exactly its oldest
    entry on the next remember, and a read over a part-stale buffer
    retains only in-window entries. -/
theorem echo_buffer_invariants_witness :
    (rememberLocalEcho bufC3 1000 "r" "zz").length ≤ LOCAL_ECHO_MAX ∧
    rememberLocalEcho bufC3 1000 "r" "zz"
      = bufC3.drop 1 ++ [⟨"r", "zz", 1000⟩] ∧
    (∀ e ∈ (isServerEchoDuplicate [⟨"r", "old", 0⟩, ⟨"r", "new", 6000⟩] 6000 "r" dataC3).2,
      staleAt 6000 e = false) := by
  have h := echo_buffer_invariants
  refine ⟨h.2.1 bufC3 1000 "r" "zz", ?_, ?_⟩
  · have h5 := h.2.2.2.2.1 bufC3 1000 "r" "zz" (by decide) (by decide)
    rw [h5]
    decide
  · intro e he
    exact h.2.2.2.2.2.2.1 [⟨"r", "old", 0⟩, ⟨"r", "new", 6000⟩] 6000 "r" dataC3
      (by decide) (by decide) e he
